import Mathlib

/-!
Shallow embedding of the financial-data-etl pipeline (src/etl_pipeline.py).

Frames are modelled as lists of rows with the fixed OHLCV schema produced by
the extractors (timestamp, open, high, low, close, volume).  A float cell is
an `Option` rational: `none` models the pandas NaN / missing value, `some q`
a finite float.  Comparisons on cells follow pandas semantics: every
comparison involving NaN is false.  Timestamps are day numbers and are never
null, matching the parsed datetime index.
-/

namespace FinancialDataETL

/-- A float cell of the frame: `none` is NaN / missing. -/
abbrev Cell := Option ℚ

/-- One row of the OHLCV frame.  The field `open_` embeds the source column
named open, which is a reserved word in Lean. -/
structure Row where
  timestamp : Nat
  open_ : Cell
  high : Cell
  low : Cell
  close : Cell
  volume : Cell
  deriving DecidableEq

/-- Pandas elementwise comparison a < b: false whenever either side is NaN. -/
def nlt : Cell → Cell → Bool
  | some a, some b => decide (a < b)
  | _, _ => false

/-- Pandas elementwise comparison a <= b: false whenever either side is NaN. -/
def nle : Cell → Cell → Bool
  | some a, some b => decide (a ≤ b)
  | _, _ => false

/-- Pandas elementwise comparison a > b. -/
def ngt (a b : Cell) : Bool := nlt b a

/-- Pandas elementwise comparison a >= b. -/
def nge (a b : Cell) : Bool := nle b a

/-- Audit issues appended by validate_data, line 85 to line 119 of the source;
each carries the count printed in the corresponding issue string. -/
inductive Issue where
  | missing (counts : List (String × Nat))
  | duplicates (n : Nat)
  | invalidOhlc (n : Nat)
  | negativePrice (col : String) (n : Nat)
  | negativeVolume (n : Nat)
  deriving DecidableEq

/-- One entry of the data quality report (source lines 125 to 131). -/
structure Report where
  initial_rows : Nat
  final_rows : Nat
  removed_rows : Nat
  issues : List Issue
  deriving DecidableEq

/-- Count of rows whose value in the given column is missing,
embedding df.isnull().sum() for one column. -/
def missingCount (get : Row → Cell) (df : List Row) : Nat :=
  df.countP (fun r => (get r).isNone)

/-- The missing-values check of lines 83 to 85: purely informational, it
removes no rows and reports the per-column null counts that are positive. -/
def missing_issues (df : List Row) : List Issue :=
  let counts := [("open", missingCount Row.open_ df),
                 ("high", missingCount Row.high df),
                 ("low", missingCount Row.low df),
                 ("close", missingCount Row.close df),
                 ("volume", missingCount Row.volume df)].filter (fun p => 0 < p.2)
  if counts.isEmpty then [] else [Issue.missing counts]

/-- Keep-first duplicate removal over an accumulator of already seen rows,
embedding df.drop_duplicates() (pandas keeps the first occurrence and
preserves order; NaN cells compare equal for duplicate detection, matching
Option equality). -/
def dropDupAux {α : Type} [DecidableEq α] (seen : List α) : List α → List α
  | [] => []
  | a :: as => if a ∈ seen then dropDupAux seen as else a :: dropDupAux (a :: seen) as

/-- df.drop_duplicates(): remove rows equal to an earlier row on all fields. -/
def drop_duplicates {α : Type} [DecidableEq α] (l : List α) : List α :=
  dropDupAux [] l

/-- Count of rows flagged by df.duplicated(): rows equal to an earlier row. -/
def duplicatedAux {α : Type} [DecidableEq α] (seen : List α) : List α → Nat
  | [] => 0
  | a :: as => (if a ∈ seen then 1 else 0) + duplicatedAux (a :: seen) as

/-- df.duplicated().sum(). -/
def duplicated_sum {α : Type} [DecidableEq α] (l : List α) : Nat :=
  duplicatedAux [] l

/-- The duplicate stage of lines 87 to 91: only when at least one duplicate is
found, the frame is deduplicated and an issue with the count is appended. -/
def dup_stage (st : List Row × List Issue) : List Row × List Issue :=
  let d := duplicated_sum st.1
  if 0 < d then (drop_duplicates st.1, st.2 ++ [Issue.duplicates d]) else st

/-- The invalid-OHLC row mask of lines 95 to 101, with pandas NaN comparison
semantics (a NaN field makes each comparison involving it false). -/
def invalidOhlc (r : Row) : Bool :=
  nlt r.high r.low || nlt r.high r.open_ || nlt r.high r.close ||
    ngt r.low r.open_ || ngt r.low r.close

/-- The shared shape of the conditional removal rules: count the offending
rows in the current frame, and only if the count is positive, filter the
frame with the keep-predicate and append the issue carrying the count. -/
def cond_filter (bad keep : Row → Bool) (mk : Nat → Issue)
    (st : List Row × List Issue) : List Row × List Issue :=
  let c := st.1.countP bad
  if 0 < c then (st.1.filter keep, st.2 ++ [mk c]) else st

/-- The OHLC-consistency stage of lines 94 to 104 (all four price columns are
present in the fixed schema, so the column guard is always taken). -/
def ohlc_stage (st : List Row × List Issue) : List Row × List Issue :=
  cond_filter invalidOhlc (fun r => !invalidOhlc r) Issue.invalidOhlc st

/-- One iteration of the non-positive price loop of lines 107 to 113:
the count uses value <= 0 while the filter keeps value > 0, which are not
complements on NaN cells. -/
def price_stage (col : String) (get : Row → Cell)
    (st : List Row × List Issue) : List Row × List Issue :=
  cond_filter (fun r => nle (get r) (some 0)) (fun r => ngt (get r) (some 0))
    (Issue.negativePrice col) st

/-- The negative-volume stage of lines 116 to 120. -/
def volume_stage (st : List Row × List Issue) : List Row × List Issue :=
  cond_filter (fun r => nlt r.volume (some 0)) (fun r => nge r.volume (some 0))
    Issue.negativeVolume st

/-- The rule chain of validate_data in source order: duplicates, OHLC
consistency, the four price columns, volume; each rule consumes the output of
the previous one. -/
def validate_chain (df : List Row) : List Row × List Issue :=
  volume_stage (price_stage "close" Row.close (price_stage "low" Row.low
    (price_stage "high" Row.high (price_stage "open" Row.open_
      (ohlc_stage (dup_stage (df, missing_issues df)))))))

/-- validate_data (source lines 75 to 134): missing check, duplicate removal,
OHLC consistency, per-column non-positive price removal in column order,
negative volume removal; returns the cleaned frame and the report entry the
method appends to the quality report. -/
def validate_data (df : List Row) : List Row × Report :=
  ((validate_chain df).1,
   { initial_rows := df.length, final_rows := (validate_chain df).1.length,
     removed_rows := df.length - (validate_chain df).1.length,
     issues := (validate_chain df).2 })

/-! The indicator engine works on float series where division can produce
infinities (numpy division of a nonzero float by zero) and NaN (0/0, or any
operation on NaN).  `FVal` models such a float: a finite rational, one of the
two infinities, or NaN. -/

/-- A float value of an indicator series. -/
inductive FVal where
  | nan
  | inf
  | ninf
  | val (q : ℚ)
  deriving DecidableEq

namespace FVal

/-- IEEE-style addition: NaN absorbs, opposite infinities give NaN. -/
def add : FVal → FVal → FVal
  | val a, val b => val (a + b)
  | nan, _ => nan
  | _, nan => nan
  | inf, ninf => nan
  | ninf, inf => nan
  | inf, _ => inf
  | _, inf => inf
  | ninf, _ => ninf
  | _, ninf => ninf

/-- IEEE-style negation. -/
def neg : FVal → FVal
  | nan => nan
  | inf => ninf
  | ninf => inf
  | val a => val (-a)

/-- IEEE-style subtraction. -/
def sub (a b : FVal) : FVal := add a (neg b)

/-- IEEE-style division as produced by pandas and numpy: a finite nonzero
value divided by zero gives a signed infinity, 0/0 gives NaN, a finite value
divided by an infinity gives 0 (the sign of zero is not modelled: the code
never distinguishes -0.0 from 0.0). -/
def div : FVal → FVal → FVal
  | nan, _ => nan
  | _, nan => nan
  | val a, val b =>
      if b = 0 then (if 0 < a then inf else if a < 0 then ninf else nan)
      else val (a / b)
  | val _, inf => val 0
  | val _, ninf => val 0
  | inf, val b => if 0 ≤ b then inf else ninf
  | ninf, val b => if 0 ≤ b then ninf else inf
  | inf, _ => nan
  | ninf, _ => nan

/-- IEEE-style strict comparison: false whenever either side is NaN. -/
def fgt : FVal → FVal → Bool
  | nan, _ => false
  | _, nan => false
  | val a, val b => decide (b < a)
  | inf, inf => false
  | inf, _ => true
  | ninf, _ => false
  | val _, inf => false
  | val _, ninf => true

/-- Whether the value is a finite number. -/
def isVal : FVal → Bool
  | val _ => true
  | _ => false

/-- The underlying rational of a finite value (only consulted under an
isVal guard). -/
def toQ : FVal → ℚ
  | val q => q
  | _ => 0

end FVal

/-- A float column cell lifted into the indicator value domain. -/
def ofCell : Cell → FVal
  | none => FVal.nan
  | some q => FVal.val q

/-- Series.shift(1) read at one index: NaN at index 0, the previous element
otherwise. -/
def shiftAt (s : List FVal) (i : Nat) : FVal :=
  if i = 0 then FVal.nan else s.getD (i - 1) FVal.nan

/-- Series.diff() read at one index. -/
def diffAt (s : List FVal) (i : Nat) : FVal :=
  FVal.sub (s.getD i FVal.nan) (shiftAt s i)

/-- Series.pct_change() read at one index: the change from the previous
element divided by the previous element. -/
def pctChangeAt (s : List FVal) (i : Nat) : FVal :=
  FVal.div (diffAt s i) (shiftAt s i)

/-- The trailing window of width w ending at index i, as pandas rolling
builds it (at most the w elements up to and including i). -/
def windowAt (w : Nat) (s : List FVal) (i : Nat) : List FVal :=
  (s.take (i + 1)).drop (i + 1 - w)

/-- The non-NaN observations of a window; rolling aggregations require at
least min_periods of them, which defaults to the window width. -/
def obsOf (l : List FVal) : List FVal :=
  l.filter (fun v => v != FVal.nan)

/-- The mean of a list of float values. -/
def meanF (l : List FVal) : FVal :=
  FVal.div (l.foldl FVal.add (FVal.val 0)) (FVal.val (l.length : ℚ))

/-- Series.rolling(window=w).mean() read at one index: NaN unless the window
holds w non-NaN observations, their mean otherwise. -/
def rollingMeanAt (w : Nat) (s : List FVal) (i : Nat) : FVal :=
  let obs := obsOf (windowAt w s i)
  if w ≤ obs.length then meanF obs else FVal.nan

/-- Sample variance with the N-1 denominator, over the rationals. -/
def sampleVarQ (l : List ℚ) : ℚ :=
  let n : ℚ := (l.length : ℚ)
  let m := l.sum / n
  ((l.map (fun x => (x - m) ^ 2)).sum) / ((l.length : ℚ) - 1)

/-- Series.rolling(window=w).std() times sqrt 252, read at one index.  The
result is a real number sqrt of the sample variance times sqrt 252; since no
later computation in the pipeline consumes this value and the map variance to
annualized std is injective on nonnegatives, the defined value is encoded by
the sample variance itself.  Definedness (NaN versus a number) is exact:
NaN unless the window holds w non-NaN observations; an infinite observation
poisons the variance to NaN. -/
def rollingStdAnnAt (w : Nat) (s : List FVal) (i : Nat) : FVal :=
  let obs := obsOf (windowAt w s i)
  if w ≤ obs.length then
    if obs.all FVal.isVal then FVal.val (sampleVarQ (obs.map FVal.toQ))
    else FVal.nan
  else FVal.nan

/-- delta.where(delta greater than 0, 0): keeps positive deltas, replaces
everything else, including NaN, with 0 (source line 154). -/
def whereGain (d : FVal) : FVal :=
  if FVal.fgt d (FVal.val 0) then d else FVal.val 0

/-- The negated delta.where(delta less than 0, 0) of source line 155. -/
def whereLoss (d : FVal) : FVal :=
  FVal.neg (if FVal.fgt (FVal.val 0) d then d else FVal.val 0)

/-- The gain series feeding the RSI rolling mean: note it is never NaN, the
where clause coerces the undefined first delta to 0. -/
def gainSeries (s : List FVal) : List FVal :=
  (List.range s.length).map fun j => whereGain (diffAt s j)

/-- The loss series feeding the RSI rolling mean. -/
def lossSeries (s : List FVal) : List FVal :=
  (List.range s.length).map fun j => whereLoss (diffAt s j)

/-- The trailing-14 mean gain at one index (source line 154). -/
def gainAt (s : List FVal) (i : Nat) : FVal :=
  rollingMeanAt 14 (gainSeries s) i

/-- The trailing-14 mean loss at one index (source line 155). -/
def lossAt (s : List FVal) (i : Nat) : FVal :=
  rollingMeanAt 14 (lossSeries s) i

/-- rsi = 100 - 100 / (1 + gain / loss), read at one index
(source lines 156 to 157). -/
def rsiAt (s : List FVal) (i : Nat) : FVal :=
  FVal.sub (FVal.val 100)
    (FVal.div (FVal.val 100) (FVal.add (FVal.val 1) (FVal.div (gainAt s i) (lossAt s i))))

/-- Natural log as applied by np.log to the return ratio: NaN stays NaN and
propagates from negative arguments, log of 0 is minus infinity, log of
infinity is infinity.  The log of a positive rational is a real number; as
with the annualized std, no later computation consumes it, and the map is
injective on positive arguments, so the defined value is encoded by the
argument of the log. -/
def lnF : FVal → FVal
  | FVal.val q => if 0 < q then FVal.val q else if q = 0 then FVal.ninf else FVal.nan
  | FVal.inf => FVal.inf
  | _ => FVal.nan

/-- The enriched record: the base row plus the six derived columns that
transform_add_indicators attaches. -/
structure ERow where
  base : Row
  sma_20 : FVal
  sma_50 : FVal
  returns : FVal
  log_returns : FVal
  volatility_20 : FVal
  rsi : FVal
  deriving DecidableEq

/-- A placeholder row used only as the default of getD reads. -/
def dummyRow : Row := ⟨0, none, none, none, none, none⟩

/-- A placeholder enriched row used only as the default of getD reads. -/
def dummyE : ERow :=
  ⟨dummyRow, FVal.nan, FVal.nan, FVal.nan, FVal.nan, FVal.nan, FVal.nan⟩

/-- The close column of the frame as a float series. -/
def closesF (df : List Row) : List FVal := df.map (fun r => ofCell r.close)

/-- The returns column (close.pct_change()) as a float series. -/
def returnsF (df : List Row) : List FVal :=
  (List.range df.length).map fun j => pctChangeAt (closesF df) j

/-- The enriched row built at one index by transform_add_indicators. -/
def indicatorRowAt (df : List Row) (i : Nat) : ERow :=
  { base := df.getD i dummyRow
    sma_20 := rollingMeanAt 20 (closesF df) i
    sma_50 := rollingMeanAt 50 (closesF df) i
    returns := pctChangeAt (closesF df) i
    log_returns := lnF (FVal.div ((closesF df).getD i FVal.nan) (shiftAt (closesF df) i))
    volatility_20 := rollingStdAnnAt 20 (returnsF df) i
    rsi := rsiAt (closesF df) i }

/-- transform_add_indicators (source lines 136 to 160) on a frame with the
fixed OHLCV schema: the close column is present, so every derived column is
computed; the result pairs each row with its six indicator values. -/
def transform_add_indicators (df : List Row) : List ERow :=
  (List.range df.length).map (indicatorRowAt df)

/-! Resampler (source lines 162 to 181).  The frame always carries the
timestamp column in this schema, so the error branch of line 166 is never
taken.  A frequency is embedded as the bucketing function it induces on the
day-number timestamps; the output row of a bucket carries the bucket label as
its timestamp.  Pandas aggregation semantics: first and last skip missing
values, max, min skip missing values and give NaN on an all-missing column,
sum of an all-missing column is 0; dropna then removes every bucket row
holding a NaN aggregate. -/

/-- The distinct bucket labels in order of first appearance (ascending for a
timestamp-sorted frame under a monotone bucketing). -/
def bucketKeys (key : Nat → Nat) (df : List Row) : List Nat :=
  drop_duplicates (df.map fun r => key r.timestamp)

/-- The rows falling in one bucket, in frame order. -/
def bucketOf (key : Nat → Nat) (df : List Row) (k : Nat) : List Row :=
  df.filter fun r => key r.timestamp == k

/-- The aggregated output row of one bucket, per the agg dictionary of source
lines 172 to 178: open first, high max, low min, close last, volume sum. -/
def aggBucket (key : Nat → Nat) (df : List Row) (k : Nat) : Row :=
  let b := bucketOf key df k
  { timestamp := k
    open_ := (b.filterMap Row.open_).head?
    high := (b.filterMap Row.high).max?
    low := (b.filterMap Row.low).min?
    close := (b.filterMap Row.close).getLast?
    volume := some (b.filterMap Row.volume).sum }

/-- Whether every aggregate field of a row is defined (the dropna filter). -/
def rowComplete (r : Row) : Bool :=
  r.open_.isSome && r.high.isSome && r.low.isSome && r.close.isSome &&
    r.volume.isSome

/-- transform_resample: aggregate each occupied bucket and drop the buckets
with an undefined aggregate.  Empty calendar buckets of the pandas grid would
aggregate to all-NaN rows and be dropped by the same filter, so only the
occupied buckets are enumerated. -/
def transform_resample (key : Nat → Nat) (df : List Row) : List Row :=
  ((bucketKeys key df).map (aggBucket key df)).filter rowComplete

/-- Spec-side resampler, modelled from the words of section 4.3 for the
refinement comparison: open is the first ROW of the bucket read at open and
close is the last ROW read at close (the code instead takes the first and
last non-missing value); high, low, volume aggregate as in the code; buckets
with an undefined aggregate are dropped. -/
def resampleSpec (key : Nat → Nat) (df : List Row) : List Row :=
  ((bucketKeys key df).map fun k =>
    let b := bucketOf key df k
    ({ timestamp := k
       open_ := b.head?.bind Row.open_
       high := (b.filterMap Row.high).max?
       low := (b.filterMap Row.low).min?
       close := b.getLast?.bind Row.close
       volume := some (b.filterMap Row.volume).sum } : Row)).filter rowComplete

/-- Weekly calendar bucketing of day-number timestamps; the offset positions
the weekday on which buckets close, covering any calendar grid alignment. -/
def weekKey (off t : Nat) : Nat := (t + off) / 7

/-- Whether the frame is sorted by timestamp ascending. -/
def tsSorted : List Row → Bool
  | [] => true
  | [_] => true
  | a :: b :: rest => decide (a.timestamp ≤ b.timestamp) && tsSorted (b :: rest)

/-- Whether every row of the frame has all five value fields defined. -/
def allComplete (df : List Row) : Bool := df.all rowComplete

/-- Whether every row of the frame has a defined, strictly positive close
(the section 3 invariant restricted to the close column). -/
def closesPos (df : List Row) : Bool :=
  df.all fun r =>
    match r.close with
    | some q => decide (0 < q)
    | none => false

/-! Pipeline orchestration (source lines 198 to 243) and the in-place
behavior of the indicator step. -/

/-- A frame flowing through the pipeline: either the base OHLCV frame or the
frame after the six indicator columns were attached. -/
inductive Frame where
  | base (rows : List Row)
  | enriched (rows : List ERow)
  deriving DecidableEq

/-- The five OHLCV columns of a frame as consumed by the resampler: on an
enriched frame the aggregation dictionary selects exactly the base columns,
discarding the indicator columns. -/
def Frame.rowsOf : Frame → List Row
  | Frame.base rs => rs
  | Frame.enriched es => es.map ERow.base

/-- The effect of transform_add_indicators on the frame value it was handed:
the close column is present in both frame shapes, so the six indicator
columns are computed from it and attached. -/
def applyIndicators : Frame → Frame
  | Frame.base rs => Frame.enriched (transform_add_indicators rs)
  | Frame.enriched es => Frame.enriched (transform_add_indicators (es.map ERow.base))

/-- Pandas column assignment of the form df[col] = series mutates the frame
object in place, and transform_add_indicators returns the very object it was
handed (source lines 140 to 160).  The method is therefore embedded against
an object store: it rewrites the frame it was given a reference to, and
returns that same reference. -/
def transform_add_indicators_obj (store : List Frame) (ref : Nat) :
    List Frame × Nat :=
  (store.set ref (applyIndicators (store.getD ref (Frame.base []))), ref)

/-- run_pipeline after the extraction step (extraction is an external
collaborator returning a frame; on failure it returns an empty one).  The
first component is the quality report list after the run, the second the
frame handed to the load step (none when load is skipped), the third the
returned frame.  When the extracted frame is empty the source logs and
returns it immediately, before validation, indicators, resampling and load
(source lines 226 to 228); no report entry is appended and nothing raises. -/
def run_pipeline (report : List Report) (extracted : List Row)
    (add_indicators : Bool) (resample_freq : Option (Nat → Nat)) :
    List Report × Option Frame × Frame :=
  if extracted.isEmpty then (report, none, Frame.base extracted)
  else
    let v := validate_data extracted
    let report2 := report ++ [v.2]
    let f1 := if add_indicators then Frame.enriched (transform_add_indicators v.1)
              else Frame.base v.1
    let f2 := match resample_freq with
      | some key => Frame.base (transform_resample key f1.rowsOf)
      | none => f1
    (report2, some f2, f2)

/-! Spec-side predicates and concrete frames used by the claim theorems. -/

/-- The section 3 post-validation invariant as the spec words it: all four
prices positive, volume nonnegative, low at most min(open, close), and
max(open, close) at most high.  A row with a missing field does not satisfy
it. -/
def rowInvariants (r : Row) : Bool :=
  match r.open_, r.high, r.low, r.close, r.volume with
  | some o, some h, some l, some c, some v =>
      decide (0 < o) && decide (0 < h) && decide (0 < l) && decide (0 < c) &&
        decide (0 ≤ v) && decide (l ≤ min o c) && decide (max o c ≤ h)
  | _, _, _, _, _ => false

/-- The row count carried by one issue string.  The missing-values issue
reports null counts, not removed rows, so it contributes zero to the sum of
per-rule removal counts. -/
def removalCount : Issue → Nat
  | Issue.missing _ => 0
  | Issue.duplicates n => n
  | Issue.invalidOhlc n => n
  | Issue.negativePrice _ n => n
  | Issue.negativeVolume n => n

/-- The sum of the per-rule removal counts reported in an issue list. -/
def removalSum (il : List Issue) : Nat := (il.map removalCount).sum

/-- A row whose close is missing but which no removal rule fires on. -/
def rowNaN : Row := ⟨0, some 1, some 2, some 1, none, some 1⟩

/-- A row with negative volume. -/
def rowV1 : Row := ⟨0, some 1, some 2, some 1, some 1, some (-5)⟩

/-- A row with missing volume. -/
def rowV2 : Row := ⟨1, some 1, some 2, some 1, some 1, none⟩

/-- A two-row frame on which the removed row count exceeds the reported
per-rule counts. -/
def dfC5 : List Row := [rowV1, rowV2]

/-- A row with nonpositive close whose missing low keeps the OHLC mask from
firing on it, so only the close filter removes it. -/
def rowBad : Row := ⟨0, some 1, some 2, none, some (-5), some 1⟩

/-- A well-formed all-positive row. -/
def rowGood : Row := ⟨0, some 1, some 2, some 1, some 1, some 1⟩

/-- A row of a strictly increasing close series. -/
def mkCloseRow (t : Nat) (c : ℚ) : Row :=
  ⟨t, some c, some (c + 1), some (c - 1/2), some c, some 1⟩

/-- Fifteen rows of strictly increasing positive closes. -/
def df15 : List Row := (List.range 15).map fun i => mkCloseRow i ((i : ℚ) + 1)

/-- Twentyfive rows of strictly increasing positive closes. -/
def df25 : List Row := (List.range 25).map fun i => mkCloseRow i ((i : ℚ) + 1)

/-- A frame of n consecutive daily rows with constant values. -/
def mkDaily (n : Nat) : List Row :=
  (List.range n).map fun i => ⟨i, some 1, some 2, some 1, some 1, some 1⟩

/-- Twenty rows whose first close is missing and whose later closes are
positive; validation lets the missing close through. -/
def dfNaN20 : List Row :=
  rowNaN :: ((List.range 19).map fun i => mkCloseRow (i + 1) ((i : ℚ) + 2))

/-- A row with a missing open, heading a weekly bucket. -/
def rowO1 : Row := ⟨0, none, some 2, some 1, some 1, some 1⟩

/-- A complete row falling in the same weekly bucket as rowO1. -/
def rowO2 : Row := ⟨1, some 3, some 2, some 1, some 1, some 1⟩

/-- A sorted two-row frame forming one weekly bucket whose first row has a
missing open. -/
def dfO : List Row := [rowO1, rowO2]

/- The kernel reduces the rational operations fine, but the decide tactic
respects their irreducibility marking; lift it locally so concrete frames can
be evaluated in proofs. -/
attribute [local semireducible] Rat.add Rat.mul Rat.sub Rat.inv

/-! Lemmas about keep-first deduplication and the duplicate count. -/

theorem mem_dropDupAux {α : Type} [DecidableEq α] {x : α} :
    ∀ (l seen : List α), x ∈ dropDupAux seen l ↔ x ∈ l ∧ x ∉ seen := by
  intro l
  induction l with
  | nil => intro seen; simp [dropDupAux]
  | cons a as ih =>
    intro seen
    simp only [dropDupAux]
    by_cases h : a ∈ seen
    · rw [if_pos h, ih]
      constructor
      · rintro ⟨hx, hs⟩
        exact ⟨List.mem_cons_of_mem _ hx, hs⟩
      · rintro ⟨hx, hs⟩
        rcases List.mem_cons.mp hx with rfl | hx
        · exact (hs h).elim
        · exact ⟨hx, hs⟩
    · rw [if_neg h]
      constructor
      · intro hx
        rcases List.mem_cons.mp hx with rfl | hx
        · exact ⟨List.mem_cons_self _ _, h⟩
        · obtain ⟨h1, h2⟩ := (ih _).mp hx
          exact ⟨List.mem_cons_of_mem _ h1,
            fun hs => h2 (List.mem_cons_of_mem _ hs)⟩
      · rintro ⟨hx, hs⟩
        by_cases hxa : x = a
        · subst hxa; exact List.mem_cons_self _ _
        · rcases List.mem_cons.mp hx with rfl | hx
          · exact absurd rfl hxa
          · refine List.mem_cons_of_mem _ ((ih _).mpr ⟨hx, fun hmem => ?_⟩)
            rcases List.mem_cons.mp hmem with rfl | h2
            · exact hxa rfl
            · exact hs h2

theorem nodup_dropDupAux {α : Type} [DecidableEq α] :
    ∀ (l seen : List α), (dropDupAux seen l).Nodup := by
  intro l
  induction l with
  | nil => intro seen; simp [dropDupAux]
  | cons a as ih =>
    intro seen
    simp only [dropDupAux]
    by_cases h : a ∈ seen
    · rw [if_pos h]; exact ih seen
    · rw [if_neg h]
      refine List.nodup_cons.mpr ⟨fun hmem => ?_, ih _⟩
      obtain ⟨_, hns⟩ := (mem_dropDupAux _ _).mp hmem
      exact hns (List.mem_cons_self _ _)

theorem sublist_dropDupAux {α : Type} [DecidableEq α] :
    ∀ (l seen : List α), (dropDupAux seen l).Sublist l := by
  intro l
  induction l with
  | nil => intro seen; simp [dropDupAux]
  | cons a as ih =>
    intro seen
    simp only [dropDupAux]
    by_cases h : a ∈ seen
    · rw [if_pos h]; exact (ih seen).trans (List.sublist_cons_self a as)
    · rw [if_neg h]; exact (ih (a :: seen)).cons₂ a

theorem prefix_take_dropDupAux {α : Type} [DecidableEq α] :
    ∀ (l seen : List α) (n : Nat),
      ∃ t, dropDupAux seen (l.take n) ++ t = dropDupAux seen l := by
  intro l
  induction l with
  | nil => intro seen n; exact ⟨[], by simp [dropDupAux]⟩
  | cons a as ih =>
    intro seen n
    cases n with
    | zero => exact ⟨dropDupAux seen (a :: as), by simp [dropDupAux]⟩
    | succ n =>
      simp only [List.take_succ_cons, dropDupAux]
      by_cases h : a ∈ seen
      · rw [if_pos h, if_pos h]; exact ih seen n
      · rw [if_neg h, if_neg h]
        obtain ⟨t, ht⟩ := ih (a :: seen) n
        exact ⟨t, by simp [ht]⟩

theorem mem_drop_duplicates {α : Type} [DecidableEq α] {x : α} {l : List α} :
    x ∈ drop_duplicates l ↔ x ∈ l := by
  rw [drop_duplicates, mem_dropDupAux]; simp

theorem nodup_drop_duplicates {α : Type} [DecidableEq α] (l : List α) :
    (drop_duplicates l).Nodup :=
  nodup_dropDupAux l []

theorem sublist_drop_duplicates {α : Type} [DecidableEq α] (l : List α) :
    (drop_duplicates l).Sublist l :=
  sublist_dropDupAux l []

theorem duplicatedAux_eq_zero {α : Type} [DecidableEq α] :
    ∀ (l seen : List α),
      duplicatedAux seen l = 0 ↔ l.Nodup ∧ ∀ x ∈ l, x ∉ seen := by
  intro l
  induction l with
  | nil => intro seen; simp [duplicatedAux]
  | cons a as ih =>
    intro seen
    simp only [duplicatedAux]
    by_cases h : a ∈ seen
    · rw [if_pos h]
      refine iff_of_false (by omega) ?_
      rintro ⟨_, hall⟩
      exact hall a (List.mem_cons_self a as) h
    · rw [if_neg h, Nat.zero_add, ih (a :: seen)]
      constructor
      · rintro ⟨nd, hall⟩
        refine ⟨List.nodup_cons.mpr ⟨fun ha => ?_, nd⟩, ?_⟩
        · exact (hall a ha) (List.mem_cons_self a seen)
        · intro x hx
          rcases List.mem_cons.mp hx with rfl | hx
          · exact h
          · exact fun hxs => (hall x hx) (List.mem_cons_of_mem _ hxs)
      · rintro ⟨nda, hall⟩
        obtain ⟨hna, nd⟩ := List.nodup_cons.mp nda
        refine ⟨nd, fun x hx hxa => ?_⟩
        rcases List.mem_cons.mp hxa with rfl | hxs
        · exact hna hx
        · exact (hall x (List.mem_cons_of_mem _ hx)) hxs

theorem duplicated_sum_eq_zero {α : Type} [DecidableEq α] {l : List α} :
    duplicated_sum l = 0 ↔ l.Nodup := by
  rw [duplicated_sum, duplicatedAux_eq_zero]; simp

/-! Lemmas about the conditional removal rules. -/

theorem cond_filter_mem {bad keep : Row → Bool} {mk : Nat → Issue}
    {st : List Row × List Issue} {r : Row}
    (h : r ∈ (cond_filter bad keep mk st).1) : r ∈ st.1 := by
  simp only [cond_filter] at h
  split at h
  · exact (List.mem_filter.mp h).1
  · exact h

theorem cond_filter_length {bad keep : Row → Bool} {mk : Nat → Issue}
    {st : List Row × List Issue} :
    (cond_filter bad keep mk st).1.length ≤ st.1.length := by
  simp only [cond_filter]
  split
  · exact List.length_filter_le _ _
  · exact le_refl _

theorem cond_filter_post {bad keep : Row → Bool} {mk : Nat → Issue}
    {st : List Row × List Issue} {r : Row}
    (hk : ∀ x, keep x = true → bad x = false)
    (h : r ∈ (cond_filter bad keep mk st).1) : bad r = false := by
  simp only [cond_filter] at h
  split at h
  case isTrue hc => exact hk r (List.mem_filter.mp h).2
  case isFalse hc =>
    have h0 : st.1.countP bad = 0 := Nat.eq_zero_of_not_pos hc
    simpa using List.countP_eq_zero.mp h0 r h

theorem cond_filter_nodup {bad keep : Row → Bool} {mk : Nat → Issue}
    {st : List Row × List Issue} (h : st.1.Nodup) :
    (cond_filter bad keep mk st).1.Nodup := by
  simp only [cond_filter]
  split
  · exact h.filter _
  · exact h

theorem cond_filter_noop {bad keep : Row → Bool} {mk : Nat → Issue}
    (rows : List Row) (issues : List Issue) (h : rows.countP bad = 0) :
    cond_filter bad keep mk (rows, issues) = (rows, issues) := by
  simp [cond_filter, h]

theorem cond_filter_keep {bad keep : Row → Bool} {mk : Nat → Issue}
    {st : List Row × List Issue} {r : Row}
    (hc : 0 < st.1.countP bad)
    (h : r ∈ (cond_filter bad keep mk st).1) : keep r = true := by
  simp only [cond_filter] at h
  rw [if_pos hc] at h
  exact (List.mem_filter.mp h).2

theorem dup_stage_mem {st : List Row × List Issue} {r : Row}
    (h : r ∈ (dup_stage st).1) : r ∈ st.1 := by
  simp only [dup_stage] at h
  split at h
  · exact mem_drop_duplicates.mp h
  · exact h

theorem dup_stage_length (st : List Row × List Issue) :
    (dup_stage st).1.length ≤ st.1.length := by
  simp only [dup_stage]
  split
  · exact (sublist_drop_duplicates _).length_le
  · exact le_refl _

theorem dup_stage_nodup (st : List Row × List Issue) : (dup_stage st).1.Nodup := by
  simp only [dup_stage]
  split
  case isTrue h => exact nodup_drop_duplicates _
  case isFalse h => exact duplicated_sum_eq_zero.mp (Nat.eq_zero_of_not_pos h)

theorem dup_stage_noop {st : List Row × List Issue} (h : st.1.Nodup) :
    dup_stage st = st := by
  have h0 : duplicated_sum st.1 = 0 := duplicated_sum_eq_zero.mpr h
  simp [dup_stage, h0]

theorem ngt_zero_not_nle {c : Cell} (h : ngt c (some 0) = true) :
    nle c (some 0) = false := by
  cases c with
  | none => simp [ngt, nlt] at h
  | some q =>
    simp only [ngt, nlt, decide_eq_true_eq] at h
    simp [nle, decide_eq_false_iff_not]
    exact h

theorem nge_zero_not_nlt {c : Cell} (h : nge c (some 0) = true) :
    nlt c (some 0) = false := by
  cases c with
  | none => simp [nge, nle] at h
  | some q =>
    simp only [nge, nle, decide_eq_true_eq] at h
    simp [nlt, decide_eq_false_iff_not]
    exact h

/-! Lemmas about the full validation chain. -/

theorem validate_chain_mem {df : List Row} {r : Row}
    (h : r ∈ (validate_chain df).1) : r ∈ df := by
  simp only [validate_chain, volume_stage, price_stage, ohlc_stage] at h
  exact dup_stage_mem (cond_filter_mem (cond_filter_mem (cond_filter_mem
    (cond_filter_mem (cond_filter_mem (cond_filter_mem h))))))

theorem validate_chain_length (df : List Row) :
    (validate_chain df).1.length ≤ df.length := by
  simp only [validate_chain, volume_stage, price_stage, ohlc_stage]
  exact le_trans cond_filter_length (le_trans cond_filter_length
    (le_trans cond_filter_length (le_trans cond_filter_length
      (le_trans cond_filter_length (le_trans cond_filter_length
        (dup_stage_length _))))))

theorem validate_chain_nodup (df : List Row) : (validate_chain df).1.Nodup := by
  simp only [validate_chain, volume_stage, price_stage, ohlc_stage]
  exact cond_filter_nodup (cond_filter_nodup (cond_filter_nodup
    (cond_filter_nodup (cond_filter_nodup (cond_filter_nodup
      (dup_stage_nodup _))))))

theorem validate_chain_post {df : List Row} {r : Row}
    (h : r ∈ (validate_chain df).1) :
    invalidOhlc r = false ∧ nle r.open_ (some 0) = false ∧
      nle r.high (some 0) = false ∧ nle r.low (some 0) = false ∧
      nle r.close (some 0) = false ∧ nlt r.volume (some 0) = false := by
  simp only [validate_chain, volume_stage, price_stage, ohlc_stage] at h
  have hvol : nlt r.volume (some 0) = false :=
    cond_filter_post (fun x hx => nge_zero_not_nlt hx) h
  have h1 := cond_filter_mem h
  have hclose : nle r.close (some 0) = false :=
    cond_filter_post (fun x hx => ngt_zero_not_nle hx) h1
  have h2 := cond_filter_mem h1
  have hlow : nle r.low (some 0) = false :=
    cond_filter_post (fun x hx => ngt_zero_not_nle hx) h2
  have h3 := cond_filter_mem h2
  have hhigh : nle r.high (some 0) = false :=
    cond_filter_post (fun x hx => ngt_zero_not_nle hx) h3
  have h4 := cond_filter_mem h3
  have hopen : nle r.open_ (some 0) = false :=
    cond_filter_post (fun x hx => ngt_zero_not_nle hx) h4
  have h5 := cond_filter_mem h4
  have hohlc : invalidOhlc r = false :=
    cond_filter_post (fun x hx => by simpa using hx) h5
  exact ⟨hohlc, hopen, hhigh, hlow, hclose, hvol⟩

theorem validate_chain_noop {c : List Row} (hnd : c.Nodup)
    (h1 : c.countP invalidOhlc = 0)
    (h2 : c.countP (fun r => nle r.open_ (some 0)) = 0)
    (h3 : c.countP (fun r => nle r.high (some 0)) = 0)
    (h4 : c.countP (fun r => nle r.low (some 0)) = 0)
    (h5 : c.countP (fun r => nle r.close (some 0)) = 0)
    (h6 : c.countP (fun r => nlt r.volume (some 0)) = 0) :
    validate_chain c = (c, missing_issues c) := by
  have hdup : dup_stage (c, missing_issues c) = (c, missing_issues c) :=
    dup_stage_noop hnd
  simp only [validate_chain, ohlc_stage, price_stage, volume_stage]
  rw [hdup, cond_filter_noop c (missing_issues c) h1,
    cond_filter_noop c (missing_issues c) h2,
    cond_filter_noop c (missing_issues c) h3,
    cond_filter_noop c (missing_issues c) h4,
    cond_filter_noop c (missing_issues c) h5,
    cond_filter_noop c (missing_issues c) h6]

theorem validate_chain_idem (df : List Row) :
    validate_chain ((validate_chain df).1) =
      ((validate_chain df).1, missing_issues ((validate_chain df).1)) := by
  have hpost := fun r (hr : r ∈ (validate_chain df).1) => validate_chain_post hr
  exact validate_chain_noop (validate_chain_nodup df)
    (List.countP_eq_zero.mpr (fun r hr => by simp [(hpost r hr).1]))
    (List.countP_eq_zero.mpr (fun r hr => by simp [(hpost r hr).2.1]))
    (List.countP_eq_zero.mpr (fun r hr => by simp [(hpost r hr).2.2.1]))
    (List.countP_eq_zero.mpr (fun r hr => by simp [(hpost r hr).2.2.2.1]))
    (List.countP_eq_zero.mpr (fun r hr => by simp [(hpost r hr).2.2.2.2.1]))
    (List.countP_eq_zero.mpr (fun r hr => by simp [(hpost r hr).2.2.2.2.2]))

/-- C4: validate is idempotent on its own output.  Applying validate_data a
second time to the cleaned frame returned by the first call removes no rows
(the second output is the very same frame), and the report entry produced by
the second call shows removed_rows = 0. -/
theorem validate_data_idempotent (df : List Row) :
    (validate_data ((validate_data df).1)).1 = (validate_data df).1 ∧
    (validate_data ((validate_data df).1)).2.removed_rows = 0 := by
  have h := validate_chain_idem df
  constructor
  · simp [validate_data, h]
  · simp [validate_data, h]

/-- C1 counterexample: a row whose close is missing survives validation
unchanged, and it does not satisfy the section 3 invariants (its close is
not a positive number), refuting that every cleaned row satisfies them. -/
theorem validate_invariant_counterexample :
    rowNaN ∈ (validate_data [rowNaN]).1 ∧ rowInvariants rowNaN = false := by
  decide

/-- C1 amended: for every input, the report satisfies final row count at
most initial row count; and every cleaned row ALL OF WHOSE FIELDS ARE
DEFINED satisfies the invariants open, high, low, close positive, volume
nonnegative, low at most min(open, close) and max(open, close) at most high.
Rows with missing values can survive validation without satisfying them,
because each removal rule only fires when its pandas count is positive and
NaN comparisons are false. -/
theorem validate_data_bounds_and_invariants (df : List Row) :
    (validate_data df).2.final_rows ≤ (validate_data df).2.initial_rows ∧
    ∀ r ∈ (validate_data df).1, rowComplete r = true → rowInvariants r = true := by
  constructor
  · simpa [validate_data] using validate_chain_length df
  · intro r hr hcomp
    have hr0 : r ∈ (validate_chain df).1 := by simpa [validate_data] using hr
    obtain ⟨hohlc, hop, hhi, hlo, hcl, hv⟩ := validate_chain_post hr0
    obtain ⟨t, o, h, l, c, v⟩ := r
    simp only [rowComplete, Bool.and_eq_true, Option.isSome_iff_exists] at hcomp
    obtain ⟨⟨⟨⟨⟨o, rfl⟩, ⟨h, rfl⟩⟩, ⟨l, rfl⟩⟩, ⟨c, rfl⟩⟩, ⟨v, rfl⟩⟩ := hcomp
    simp only [invalidOhlc, nlt, ngt, Bool.or_eq_false_iff, decide_eq_false_iff_not,
      not_lt] at hohlc
    obtain ⟨⟨⟨⟨hlh, hoh⟩, hch⟩, hlo2⟩, hlc2⟩ := hohlc
    simp only [nle, decide_eq_false_iff_not, not_le] at hop hhi hlo hcl
    simp only [nlt, decide_eq_false_iff_not, not_lt] at hv
    simp only [rowInvariants, Bool.and_eq_true, decide_eq_true_eq]
    refine ⟨⟨⟨⟨⟨⟨hop, hhi⟩, hlo⟩, hcl⟩, hv⟩, le_min hlo2 hlc2⟩, max_le hoh hch⟩

/-- C1 witness: the general bound and a concrete complete row that validates
and indeed satisfies the invariants. -/
theorem validate_data_bounds_and_invariants_witness :
    rowInvariants rowGood = true :=
  (validate_data_bounds_and_invariants [rowGood]).2 rowGood (by decide) (by decide)

/-- C5: whenever a non-positive price check fires (some row of the current
frame has that column at most 0 under pandas comparison), the applied filter
keeps only rows whose value in that column is present and positive, so every
row with a missing value in that column is removed too; likewise for the
negative-volume filter.  The missing-value rule itself removes no rows by
construction (it only contributes an issue).  Consequently, on the concrete
frame dfC5 the removed row count (2) strictly exceeds the sum of the
per-rule counts reported in the issue strings (1). -/
theorem price_filter_drops_missing :
    (∀ (get : Row → Cell) (col : String) (st : List Row × List Issue),
       0 < st.1.countP (fun r => nle (get r) (some 0)) →
       ∀ r ∈ (price_stage col get st).1,
         (get r).isSome = true ∧ ngt (get r) (some 0) = true) ∧
    (∀ st : List Row × List Issue,
       0 < st.1.countP (fun r => nlt r.volume (some 0)) →
       ∀ r ∈ (volume_stage st).1,
         r.volume.isSome = true ∧ nge r.volume (some 0) = true) ∧
    removalSum (validate_data dfC5).2.issues < (validate_data dfC5).2.removed_rows := by
  refine ⟨?_, ?_, by decide⟩
  · intro get col st hc r hr
    simp only [price_stage] at hr
    have hk := cond_filter_keep hc hr
    refine ⟨?_, hk⟩
    cases hget : get r with
    | none => rw [hget] at hk; simp [ngt, nlt] at hk
    | some q => simp
  · intro st hc r hr
    simp only [volume_stage] at hr
    have hk := cond_filter_keep hc hr
    refine ⟨?_, hk⟩
    cases hget : r.volume with
    | none => rw [hget] at hk; simp [nge, nle] at hk
    | some q => simp

/-- C5 witness: the price filter fired by rowBad and the volume filter fired
by rowV1 both retain the complete positive row, whose cells are present and
positive. -/
theorem price_filter_drops_missing_witness :
    (rowGood.close.isSome = true ∧ ngt rowGood.close (some 0) = true) ∧
    (rowGood.volume.isSome = true ∧ nge rowGood.volume (some 0) = true) :=
  ⟨price_filter_drops_missing.1 Row.close "close" ([rowGood, rowBad], [])
      (by decide) rowGood (by decide),
   price_filter_drops_missing.2.1 ([rowGood, rowV1, rowV2], [])
      (by decide) rowGood (by decide)⟩

/-- C9 counterexample: the frame repeating rowBad twice keeps one copy at the
duplicate stage, but the close filter then removes that copy as well, so the
cleaned output holds zero copies of the repeated row, not exactly one. -/
theorem duplicate_copy_removed_counterexample :
    ¬ (validate_data [rowBad, rowBad]).1.count rowBad = 1 := by
  decide

/-- C9 amended: the duplicate-removal STAGE keeps exactly one copy of each
distinct row, keeps the first occurrence (processing any prefix of the input
yields a prefix of the output), and preserves the original relative order
(its output is a sublist of the input); the final cleaned output of
validate_data holds AT MOST one copy of any row, because the later rules can
remove the kept copy. -/
theorem drop_duplicates_spec (l : List Row) :
    (∀ r : Row, r ∈ drop_duplicates l ↔ r ∈ l) ∧
    (∀ r ∈ l, (drop_duplicates l).count r = 1) ∧
    (drop_duplicates l).Sublist l ∧
    (∀ n, ∃ t, drop_duplicates (l.take n) ++ t = drop_duplicates l) ∧
    (∀ r : Row, (validate_data l).1.count r ≤ 1) := by
  refine ⟨fun r => mem_drop_duplicates, fun r hr => ?_, sublist_drop_duplicates l,
    fun n => prefix_take_dropDupAux l [] n, fun r => ?_⟩
  · exact List.count_eq_one_of_mem (nodup_drop_duplicates l)
      (mem_drop_duplicates.mpr hr)
  · have := validate_chain_nodup l
    simp only [validate_data]
    exact List.nodup_iff_count_le_one.mp this r

/-- C9 witness: on a concrete frame with a repeated row the dedup stage keeps
exactly one copy. -/
theorem drop_duplicates_spec_witness :
    (drop_duplicates [rowGood, rowV1, rowGood]).count rowGood = 1 :=
  (drop_duplicates_spec [rowGood, rowV1, rowGood]).2.1 rowGood (by decide)

/-! Lemmas about the float value domain. -/

theorem FVal.add_nan (x : FVal) : FVal.add x FVal.nan = FVal.nan := by
  cases x <;> rfl

theorem FVal.nan_add (x : FVal) : FVal.add FVal.nan x = FVal.nan := by
  cases x <;> rfl

theorem FVal.div_nan (x : FVal) : FVal.div x FVal.nan = FVal.nan := by
  cases x <;> rfl

theorem FVal.nan_div (x : FVal) : FVal.div FVal.nan x = FVal.nan := by
  cases x <;> rfl

theorem FVal.sub_nan (x : FVal) : FVal.sub x FVal.nan = FVal.nan := by
  cases x <;> rfl

theorem lnF_nan : lnF FVal.nan = FVal.nan := rfl

/-! Lemmas about rolling windows. -/

theorem windowAt_length_le (w : Nat) (s : List FVal) (i : Nat) :
    (windowAt w s i).length ≤ i + 1 := by
  simp only [windowAt, List.length_drop, List.length_take]
  exact le_trans (Nat.sub_le _ _) (Nat.min_le_left _ _)

theorem windowAt_length (w : Nat) (s : List FVal) (i : Nat)
    (hi : i < s.length) (hw : w ≤ i + 1) : (windowAt w s i).length = w := by
  simp only [windowAt, List.length_drop, List.length_take]
  have hmin : (i + 1) ⊓ s.length = i + 1 := min_eq_left (by omega)
  rw [hmin]
  omega

theorem windowAt_mem {w : Nat} {s : List FVal} {i : Nat} {x : FVal}
    (h : x ∈ windowAt w s i) :
    ∃ j, j < s.length ∧ i + 1 - w ≤ j ∧ j ≤ i ∧ s.getD j FVal.nan = x := by
  simp only [windowAt] at h
  obtain ⟨k, hk, hx⟩ := List.mem_iff_getElem.mp h
  have hlen : ((s.take (i + 1)).drop (i + 1 - w)).length
      = (i + 1) ⊓ s.length - (i + 1 - w) := by
    simp [List.length_drop, List.length_take]
  rw [hlen] at hk
  have hjs : (i + 1 - w) + k < s.length := by
    have := Nat.min_le_right (i + 1) s.length; omega
  have hji : (i + 1 - w) + k < i + 1 := by
    have := Nat.min_le_left (i + 1) s.length; omega
  refine ⟨(i + 1 - w) + k, hjs, Nat.le_add_right _ _, by omega, ?_⟩
  rw [List.getD_eq_getElem _ _ hjs]
  rw [List.getElem_drop, List.getElem_take] at hx
  exact hx

theorem windowAt_head_mem {w : Nat} {s : List FVal} {i : Nat}
    (hi : i < s.length) (hiw : i + 1 ≤ w) :
    s.getD 0 FVal.nan ∈ windowAt w s i := by
  have h0 : 0 < s.length := by omega
  simp only [windowAt]
  have hzero : i + 1 - w = 0 := by omega
  rw [hzero, List.drop_zero]
  refine List.mem_iff_getElem.mpr ⟨0, ?_, ?_⟩
  · simp only [List.length_take]
    exact lt_min (by omega) h0
  · rw [List.getElem_take]
    exact (List.getD_eq_getElem _ _ h0).symm

theorem obsOf_length_le (l : List FVal) : (obsOf l).length ≤ l.length :=
  List.length_filter_le _ _

theorem obsOf_eq_self {l : List FVal} (h : ∀ x ∈ l, x ≠ FVal.nan) :
    obsOf l = l :=
  List.filter_eq_self.mpr (fun a ha => by simpa using h a ha)

theorem obsOf_length_lt {l : List FVal} (h : FVal.nan ∈ l) :
    (obsOf l).length < l.length :=
  List.length_filter_lt_length_iff_exists.mpr ⟨FVal.nan, h, by simp⟩

theorem foldl_add_val :
    ∀ (l : List FVal) (a : ℚ), (∀ x ∈ l, FVal.isVal x = true) →
      ∃ q : ℚ, l.foldl FVal.add (FVal.val a) = FVal.val q := by
  intro l
  induction l with
  | nil => intro a _; exact ⟨a, rfl⟩
  | cons x xs ih =>
    intro a h
    have hx := h x (List.mem_cons_self _ _)
    cases x with
    | val q =>
      simpa [FVal.add] using ih (a + q) (fun y hy => h y (List.mem_cons_of_mem _ hy))
    | nan => simp [FVal.isVal] at hx
    | inf => simp [FVal.isVal] at hx
    | ninf => simp [FVal.isVal] at hx

theorem meanF_val {l : List FVal} (h : ∀ x ∈ l, FVal.isVal x = true)
    (hne : l.length ≠ 0) : ∃ q : ℚ, meanF l = FVal.val q := by
  obtain ⟨q, hq⟩ := foldl_add_val l 0 h
  have hl : ((l.length : ℚ)) ≠ 0 := by exact_mod_cast hne
  exact ⟨q / (l.length : ℚ), by simp [meanF, hq, FVal.div, hl]⟩

theorem rollingMeanAt_nan_of_lt {w : Nat} {s : List FVal} {i : Nat}
    (h : i + 1 < w) : rollingMeanAt w s i = FVal.nan := by
  have hlen : (obsOf (windowAt w s i)).length < w :=
    lt_of_le_of_lt (le_trans (obsOf_length_le _) (windowAt_length_le w s i)) h
  simp only [rollingMeanAt]
  rw [if_neg (Nat.not_le.mpr hlen)]

theorem rollingMeanAt_val {w : Nat} {s : List FVal} {i : Nat}
    (hw : 0 < w) (hi : i < s.length) (hwi : w ≤ i + 1)
    (hval : ∀ x ∈ windowAt w s i, FVal.isVal x = true) :
    ∃ q : ℚ, rollingMeanAt w s i = FVal.val q := by
  have hobs : obsOf (windowAt w s i) = windowAt w s i :=
    obsOf_eq_self (fun x hx => by
      have := hval x hx; cases x <;> simp_all [FVal.isVal])
  have hlen : (windowAt w s i).length = w := windowAt_length w s i hi hwi
  obtain ⟨q, hq⟩ := meanF_val hval (by rw [hlen]; omega)
  refine ⟨q, ?_⟩
  simp only [rollingMeanAt, hobs, hlen]
  rw [if_pos (le_refl w)]
  exact hq

theorem rollingStdAnnAt_nan_of_lt {w : Nat} {s : List FVal} {i : Nat}
    (h : i + 1 < w) : rollingStdAnnAt w s i = FVal.nan := by
  have hlen : (obsOf (windowAt w s i)).length < w :=
    lt_of_le_of_lt (le_trans (obsOf_length_le _) (windowAt_length_le w s i)) h
  simp only [rollingStdAnnAt]
  rw [if_neg (Nat.not_le.mpr hlen)]

theorem rollingStdAnnAt_nan_of_nan_mem {w : Nat} {s : List FVal} {i : Nat}
    (hi : i < s.length) (hw : w ≤ i + 1)
    (h : FVal.nan ∈ windowAt w s i) : rollingStdAnnAt w s i = FVal.nan := by
  have hlt : (obsOf (windowAt w s i)).length < w := by
    have := obsOf_length_lt h
    rwa [windowAt_length w s i hi hw] at this
  simp only [rollingStdAnnAt]
  rw [if_neg (Nat.not_le.mpr hlt)]

theorem rollingStdAnnAt_val {w : Nat} {s : List FVal} {i : Nat}
    (hi : i < s.length) (hwi : w ≤ i + 1)
    (hval : ∀ x ∈ windowAt w s i, FVal.isVal x = true) :
    ∃ q : ℚ, rollingStdAnnAt w s i = FVal.val q := by
  have hobs : obsOf (windowAt w s i) = windowAt w s i :=
    obsOf_eq_self (fun x hx => by
      have := hval x hx; cases x <;> simp_all [FVal.isVal])
  have hlen : (windowAt w s i).length = w := windowAt_length w s i hi hwi
  refine ⟨sampleVarQ ((windowAt w s i).map FVal.toQ), ?_⟩
  simp only [rollingStdAnnAt, hobs, hlen]
  rw [if_pos (le_refl w), if_pos (List.all_eq_true.mpr hval)]

/-! Lemmas about the indicator columns of a positive close series. -/

theorem tai_getD {df : List Row} {i : Nat} (hi : i < df.length) :
    (transform_add_indicators df).getD i dummyE = indicatorRowAt df i := by
  have hlen : i < (transform_add_indicators df).length := by
    simpa [transform_add_indicators] using hi
  rw [List.getD_eq_getElem _ _ hlen]
  simp [transform_add_indicators]

theorem closesF_length (df : List Row) : (closesF df).length = df.length := by
  simp [closesF]

theorem closesF_val {df : List Row} (hpos : closesPos df = true) {j : Nat}
    (hj : j < df.length) :
    ∃ q : ℚ, (closesF df).getD j FVal.nan = FVal.val q ∧ 0 < q := by
  have hlen : j < (closesF df).length := by simpa [closesF] using hj
  rw [List.getD_eq_getElem _ _ hlen]
  simp only [closesF, List.getElem_map]
  have hmem : df[j] ∈ df := List.getElem_mem hj
  have hall := List.all_eq_true.mp hpos _ hmem
  cases hc : df[j].close with
  | none => rw [hc] at hall; simp at hall
  | some q =>
    rw [hc] at hall
    simp only [decide_eq_true_eq] at hall
    exact ⟨q, by simp [ofCell, hc], hall⟩

theorem returns_nan_zero (s : List FVal) : pctChangeAt s 0 = FVal.nan := by
  simp [pctChangeAt, diffAt, shiftAt, FVal.sub_nan, FVal.div_nan]

theorem returns_val {df : List Row} (hpos : closesPos df = true) {i : Nat}
    (hi : i < df.length) (h1 : 1 ≤ i) :
    ∃ q : ℚ, pctChangeAt (closesF df) i = FVal.val q := by
  obtain ⟨ci, hci, _⟩ := closesF_val hpos hi
  obtain ⟨cp, hcp, hcpos⟩ := closesF_val hpos (j := i - 1) (by omega)
  simp only [pctChangeAt, diffAt, shiftAt, if_neg (by omega : ¬ i = 0)]
  rw [hci, hcp]
  refine ⟨(ci - cp) / cp, ?_⟩
  have hne : cp ≠ 0 := ne_of_gt hcpos
  simp [FVal.sub, FVal.add, FVal.neg, FVal.div, hne, sub_eq_add_neg]

theorem log_returns_nan_zero (s : List FVal) :
    lnF (FVal.div (s.getD 0 FVal.nan) (shiftAt s 0)) = FVal.nan := by
  simp [shiftAt, FVal.div_nan, lnF_nan]

theorem log_returns_val {df : List Row} (hpos : closesPos df = true) {i : Nat}
    (hi : i < df.length) (h1 : 1 ≤ i) :
    ∃ q : ℚ, lnF (FVal.div ((closesF df).getD i FVal.nan)
      (shiftAt (closesF df) i)) = FVal.val q := by
  obtain ⟨ci, hci, hcip⟩ := closesF_val hpos hi
  obtain ⟨cp, hcp, hcpp⟩ := closesF_val hpos (j := i - 1) (by omega)
  simp only [shiftAt, if_neg (by omega : ¬ i = 0)]
  rw [hci, hcp]
  have hne : cp ≠ 0 := ne_of_gt hcpp
  have hratio : 0 < ci / cp := div_pos hcip hcpp
  exact ⟨ci / cp, by simp [FVal.div, hne, lnF, hratio]⟩

theorem returnsF_length (df : List Row) : (returnsF df).length = df.length := by
  simp [returnsF]

theorem returnsF_getD {df : List Row} {j : Nat} (hj : j < df.length) :
    (returnsF df).getD j FVal.nan = pctChangeAt (closesF df) j := by
  have hlen : j < (returnsF df).length := by simpa [returnsF] using hj
  rw [List.getD_eq_getElem _ _ hlen]
  simp [returnsF]

/-- C2: on every row where the trailing-14 gain and loss rolling means are
both defined, if loss is 0 and gain is positive then the division produces
an infinite relative strength and rsi evaluates to exactly 100; if gain and
loss are both 0 the relative strength is the indeterminate 0/0, giving NaN
(the undefined sentinel, not 0, 50 or 100).  All operations are total, so no
exception can arise. -/
theorem rsi_edge_cases (df : List Row) (i : Nat) (g l : ℚ)
    (hi : i < df.length)
    (hg : gainAt (closesF df) i = FVal.val g)
    (hl : lossAt (closesF df) i = FVal.val l) :
    (l = 0 ∧ 0 < g →
      ((transform_add_indicators df).getD i dummyE).rsi = FVal.val 100) ∧
    (g = 0 ∧ l = 0 →
      ((transform_add_indicators df).getD i dummyE).rsi = FVal.nan) := by
  rw [tai_getD hi]
  simp only [indicatorRowAt]
  constructor
  · rintro ⟨rfl, hgpos⟩
    simp [rsiAt, hg, hl, FVal.div, FVal.add, FVal.sub, FVal.neg, hgpos]
  · rintro ⟨rfl, rfl⟩
    simp [rsiAt, hg, hl, FVal.div, FVal.add, FVal.sub, FVal.neg]

/-- C2 witness: on the strictly increasing close series df15 the rolling
means at row 13 are gain 13/14 and loss 0, and the theorem yields the
implications there. -/
theorem rsi_edge_cases_witness :
    ((0 : ℚ) = 0 ∧ (0 : ℚ) < 13 / 14 →
      ((transform_add_indicators df15).getD 13 dummyE).rsi = FVal.val 100) ∧
    ((13 / 14 : ℚ) = 0 ∧ (0 : ℚ) = 0 →
      ((transform_add_indicators df15).getD 13 dummyE).rsi = FVal.nan) :=
  rsi_edge_cases df15 13 (13 / 14) 0 (by decide) (by decide) (by decide)

/-- C3 counterexample: on the fifteen-row strictly increasing close series
the rsi at row index 13 is the defined value 100, refuting that rsi is
undefined for each of the first 14 rows (indices 0 through 13).  The first
delta is undefined, but the where clause coerces it to 0 before the rolling
mean, so the trailing-14 means are already defined at index 13. -/
theorem rsi_defined_at_row_13 :
    ((transform_add_indicators df15).getD 13 dummyE).rsi = FVal.val 100 := by
  decide

/-- C3 amended: rsi is undefined (NaN) for the first 13 rows, indices 0
through 12, of every input frame; from index 13 on, the trailing-14 gain and
loss are defined, since the undefined first delta is coerced to 0 by the
where clause, and rsi is then defined except in the 0/0 case. -/
theorem rsi_warmup_13 (df : List Row) (i : Nat) (hi : i < df.length)
    (h13 : i < 13) :
    ((transform_add_indicators df).getD i dummyE).rsi = FVal.nan := by
  rw [tai_getD hi]
  simp only [indicatorRowAt]
  have hg : gainAt (closesF df) i = FVal.nan :=
    rollingMeanAt_nan_of_lt (by omega)
  simp [rsiAt, hg, FVal.nan_div, FVal.add_nan, FVal.div_nan, FVal.sub_nan]

/-- C3 witness: rsi at row 5 of the concrete series is NaN. -/
theorem rsi_warmup_13_witness :
    ((transform_add_indicators df15).getD 5 dummyE).rsi = FVal.nan :=
  rsi_warmup_13 df15 5 (by decide) (by decide)

/-- C8 counterexample: the warm-up pattern does not hold for every input
sequence with a close column: on the twenty-row frame dfNaN20, whose first
close is missing (a shape validation lets through), sma_20 is still
undefined at row index 19, where the claim says the first 19 rows exactly
are undefined, and returns is undefined at row index 1, where the claim
says it is defined. -/
theorem indicator_warmup_counterexample :
    ((transform_add_indicators dfNaN20).getD 19 dummyE).sma_20 = FVal.nan ∧
    ((transform_add_indicators dfNaN20).getD 1 dummyE).returns = FVal.nan := by
  decide

/-- C8 amended: the warm-up pattern holds on every frame whose closes are
all defined and positive; a missing close removes observations from the
rolling windows and shifts the pattern, see the counterexample.  Under that
scope: sma_20 is defined exactly from row index 19 on, sma_50 exactly from
index 49 on, returns and log_returns are undefined at row 0 and defined
from row 1 on, and volatility_20 is undefined through row 19 and defined
exactly from row 20 on (20 returns observations are first available
there). -/
theorem indicator_warmup (df : List Row) (hpos : closesPos df = true)
    (i : Nat) (hi : i < df.length) :
    (((transform_add_indicators df).getD i dummyE).sma_20 ≠ FVal.nan ↔ 19 ≤ i) ∧
    (((transform_add_indicators df).getD i dummyE).sma_50 ≠ FVal.nan ↔ 49 ≤ i) ∧
    (((transform_add_indicators df).getD i dummyE).returns ≠ FVal.nan ↔ 1 ≤ i) ∧
    (((transform_add_indicators df).getD i dummyE).log_returns ≠ FVal.nan ↔ 1 ≤ i) ∧
    (((transform_add_indicators df).getD i dummyE).volatility_20 ≠ FVal.nan ↔ 20 ≤ i) := by
  rw [tai_getD hi]
  simp only [indicatorRowAt]
  have hclen : i < (closesF df).length := by rwa [closesF_length]
  have hrlen : i < (returnsF df).length := by rwa [returnsF_length]
  have hcval : ∀ w, ∀ x ∈ windowAt w (closesF df) i, FVal.isVal x = true := by
    intro w x hx
    obtain ⟨j, hj, _, _, hget⟩ := windowAt_mem hx
    rw [closesF_length] at hj
    obtain ⟨q, hq, _⟩ := closesF_val hpos hj
    rw [← hget, hq]; rfl
  refine ⟨?_, ?_, ?_, ?_, ?_⟩
  · constructor
    · intro hne
      by_contra hlt
      exact hne (rollingMeanAt_nan_of_lt (by omega))
    · intro h19
      obtain ⟨q, hq⟩ := rollingMeanAt_val (by norm_num) hclen (by omega) (hcval 20)
      simp [hq]
  · constructor
    · intro hne
      by_contra hlt
      exact hne (rollingMeanAt_nan_of_lt (by omega))
    · intro h49
      obtain ⟨q, hq⟩ := rollingMeanAt_val (by norm_num) hclen (by omega) (hcval 50)
      simp [hq]
  · constructor
    · intro hne
      by_contra hlt
      have hz : i = 0 := by omega
      subst hz
      exact hne (returns_nan_zero _)
    · intro h1
      obtain ⟨q, hq⟩ := returns_val hpos hi h1
      simp [hq]
  · constructor
    · intro hne
      by_contra hlt
      have hz : i = 0 := by omega
      subst hz
      exact hne (log_returns_nan_zero _)
    · intro h1
      obtain ⟨q, hq⟩ := log_returns_val hpos hi h1
      rw [List.getD_eq_getElem?_getD] at hq
      simp [hq]
  · constructor
    · intro hne
      by_contra hlt
      push_neg at hlt
      rcases Nat.lt_or_ge i 19 with hlt19 | hge19
      · exact hne (rollingStdAnnAt_nan_of_lt (by omega))
      · have h19 : i = 19 := by omega
        subst h19
        refine hne (rollingStdAnnAt_nan_of_nan_mem hrlen (by norm_num) ?_)
        have hmem := windowAt_head_mem (w := 20) hrlen (by norm_num)
        rwa [returnsF_getD (by omega), returns_nan_zero] at hmem
    · intro h20
      have hrval : ∀ x ∈ windowAt 20 (returnsF df) i, FVal.isVal x = true := by
        intro x hx
        obtain ⟨j, hj, hjlo, _, hget⟩ := windowAt_mem hx
        rw [returnsF_length] at hj
        rw [returnsF_getD hj] at hget
        obtain ⟨q, hq⟩ := returns_val hpos hj (by omega)
        rw [← hget, hq]; rfl
      obtain ⟨q, hq⟩ := rollingStdAnnAt_val hrlen (by omega) hrval
      simp [hq]

/-! Lemmas about the resampler. -/

theorem filterMap_head_all {α β : Type} (f : α → Option β) :
    ∀ (l : List α), (∀ r ∈ l, (f r).isSome = true) →
      (l.filterMap f).head? = l.head?.bind f := by
  intro l
  induction l with
  | nil => intro _; simp
  | cons a as _ =>
    intro h
    obtain ⟨v, hv⟩ := Option.isSome_iff_exists.mp (h a (List.mem_cons_self _ _))
    simp [List.filterMap_cons, hv]

theorem filterMap_getLast_all {α β : Type} (f : α → Option β) :
    ∀ (l : List α), (∀ r ∈ l, (f r).isSome = true) →
      (l.filterMap f).getLast? = l.getLast?.bind f := by
  intro l
  induction l with
  | nil => intro _; simp
  | cons a as ih =>
    intro h
    obtain ⟨v, hv⟩ := Option.isSome_iff_exists.mp (h a (List.mem_cons_self _ _))
    have hmap : List.filterMap f (a :: as) = v :: List.filterMap f as := by
      simp [List.filterMap_cons, hv]
    cases as with
    | nil => simp [hmap, hv]
    | cons b bs =>
      obtain ⟨w, hw⟩ := Option.isSome_iff_exists.mp
        (h b (List.mem_cons_of_mem _ (List.mem_cons_self _ _)))
      have hmap2 : List.filterMap f (b :: bs) = w :: List.filterMap f bs := by
        simp [List.filterMap_cons, hw]
      rw [hmap, hmap2, List.getLast?_cons_cons, ← hmap2,
        ih (fun r hr => h r (List.mem_cons_of_mem _ hr)), List.getLast?_cons_cons]

/-- C6 counterexample: the resampler does not implement the claimed
first-ROW aggregation with drop-if-undefined on every timestamp-sorted
input: the pandas first and last aggregates skip missing values, so on the
sorted frame dfO, whose single weekly bucket has a missing open in its
first row, the code keeps the bucket and outputs open 3 (the first defined
open), while the claimed aggregation (open = the first row read at open,
buckets with an undefined aggregate dropped) would drop the bucket, as the
section 4.3 modelled resampleSpec does. -/
theorem resample_first_skips_missing_counterexample :
    tsSorted dfO = true ∧
    transform_resample (weekKey 0) dfO ≠ resampleSpec (weekKey 0) dfO ∧
    ((transform_resample (weekKey 0) dfO).getD 0 dummyRow).open_ = some 3 ∧
    (dfO.getD 0 dummyRow).open_ = none := by
  decide

/-- C6 amended: on a timestamp-sorted frame all of whose rows are complete
(the only shape on which first non-missing value and first row coincide),
the resampler agrees with the section 4.3 description: per occupied bucket,
open is the first row of the bucket read at open, high the bucket max, low
the bucket min, close the last row read at close, volume the bucket sum,
and buckets with an undefined aggregate are dropped (none arise on complete
rows; on incomplete rows the code instead skips missing values, see the
counterexample); the resampler consumes only the five OHLCV base columns of
an enriched frame, so indicator columns are discarded and the output
carries exactly the base fields; and resampling 100 consecutive daily rows
with a weekly bucketing of any grid alignment yields strictly fewer rows
than the input, with no completeness assumption. -/
theorem resample_agg_and_weekly_shrinks :
    (∀ (key : Nat → Nat) (df : List Row), tsSorted df = true →
       allComplete df = true →
       transform_resample key df = resampleSpec key df) ∧
    (∀ (key : Nat → Nat) (es : List ERow),
       transform_resample key (Frame.enriched es).rowsOf
         = transform_resample key (es.map ERow.base)) ∧
    (∀ (off d0 : Nat) (df : List Row), df.length = 100 →
       (∀ i (h : i < df.length), df[i].timestamp = d0 + i) →
       (transform_resample (weekKey off) df).length < df.length) := by
  refine ⟨?_, fun key es => rfl, ?_⟩
  · intro key df _ hall
    unfold transform_resample resampleSpec
    congr 1
    apply List.map_congr_left
    intro k _
    have hb : ∀ r ∈ bucketOf key df k, rowComplete r = true := by
      intro r hr
      exact List.all_eq_true.mp hall r (List.mem_filter.mp hr).1
    have hopen : ∀ r ∈ bucketOf key df k, (Row.open_ r).isSome = true := by
      intro r hr
      have := hb r hr
      simp only [rowComplete, Bool.and_eq_true] at this
      exact this.1.1.1.1
    have hclose : ∀ r ∈ bucketOf key df k, (Row.close r).isSome = true := by
      intro r hr
      have := hb r hr
      simp only [rowComplete, Bool.and_eq_true] at this
      exact this.1.2
    simp only [aggBucket, Row.mk.injEq, true_and, and_true]
    exact ⟨filterMap_head_all _ _ hopen, filterMap_getLast_all _ _ hclose⟩
  · intro off d0 df hlen hts
    have hsub : (transform_resample (weekKey off) df).length
        ≤ (bucketKeys (weekKey off) df).length := by
      unfold transform_resample
      exact le_trans (List.length_filter_le _ _) (le_of_eq (List.length_map _ _))
    have hnd : (bucketKeys (weekKey off) df).Nodup := nodup_drop_duplicates _
    have hbound : ∀ x ∈ bucketKeys (weekKey off) df,
        (d0 + off) / 7 ≤ x ∧ x ≤ (d0 + off) / 7 + 15 := by
      intro x hx
      have hxks : x ∈ df.map (fun r => weekKey off r.timestamp) :=
        mem_drop_duplicates.mp hx
      obtain ⟨r, hr, hrx⟩ := List.mem_map.mp hxks
      obtain ⟨i, hi, hri⟩ := List.mem_iff_getElem.mp hr
      have hts2 := hts i hi
      rw [hri] at hts2
      rw [hlen] at hi
      rw [← hrx, weekKey, hts2]
      omega
    have hsubset : (bucketKeys (weekKey off) df).toFinset
        ⊆ Finset.Icc ((d0 + off) / 7) ((d0 + off) / 7 + 15) := by
      intro x hx
      rw [List.mem_toFinset] at hx
      exact Finset.mem_Icc.mpr (hbound x hx)
    have hcard := Finset.card_le_card hsubset
    rw [List.toFinset_card_of_nodup hnd, Nat.card_Icc] at hcard
    omega

/-- C6 witness: the refinement instantiated on a small sorted complete
frame, and the weekly shrink instantiated on 100 concrete daily rows. -/
theorem resample_agg_and_weekly_shrinks_witness :
    transform_resample (weekKey 0) (mkDaily 3) = resampleSpec (weekKey 0) (mkDaily 3) ∧
    (transform_resample (weekKey 0) (mkDaily 100)).length < (mkDaily 100).length :=
  ⟨resample_agg_and_weekly_shrinks.1 (weekKey 0) (mkDaily 3) (by decide) (by decide),
   resample_agg_and_weekly_shrinks.2.2 0 0 (mkDaily 100) (by simp [mkDaily])
     (by intro i h; simp [mkDaily])⟩

/-- C7 counterexample: transform_add_indicators mutates the frame object it
is handed (pandas column assignment is in place, and the method returns the
same object): after the call, the object the caller passed in holds the
enriched frame, no longer its original fields and values, refuting that the
input is left unchanged. -/
theorem add_indicators_mutates_input :
    ¬ (transform_add_indicators_obj [Frame.base [rowGood]] 0).1.getD 0 (Frame.base [])
        = Frame.base [rowGood] := by
  decide

/-- C7 amended: transform_add_indicators returns the very reference it was
handed, and afterwards that object holds the enriched frame computed from
the frame previously there: the indicator step mutates the validated history
in place instead of producing a new sequence and leaving the input
unchanged.  (validate_data and transform_resample only rebind: they build
new frames from the old one.) -/
theorem add_indicators_in_place (store : List Frame) (ref : Nat)
    (h : ref < store.length) :
    (transform_add_indicators_obj store ref).2 = ref ∧
    (transform_add_indicators_obj store ref).1.getD ref (Frame.base [])
      = applyIndicators (store.getD ref (Frame.base [])) := by
  refine ⟨rfl, ?_⟩
  simp only [transform_add_indicators_obj]
  rw [List.getD_eq_getElem _ _ (by simpa using h), List.getElem_set_self]

/-- C7 witness: the in-place effect observed on a one-frame store. -/
theorem add_indicators_in_place_witness :
    (transform_add_indicators_obj [Frame.base [rowGood]] 0).2 = 0 ∧
    (transform_add_indicators_obj [Frame.base [rowGood]] 0).1.getD 0 (Frame.base [])
      = applyIndicators ([Frame.base [rowGood]].getD 0 (Frame.base [])) :=
  add_indicators_in_place [Frame.base [rowGood]] 0 (by decide)

/-- C10: when extraction yields the empty frame, run_pipeline returns it
immediately: the quality report list is unchanged (no entry is appended,
since validation never runs), no frame is handed to the load step, and the
returned frame is the empty base frame; the indicator and resample stages
are skipped for every combination of the flags.  The embedding is a total
function, so no exception arises. -/
theorem run_pipeline_empty_short_circuit (report : List Report)
    (add_indicators : Bool) (resample_freq : Option (Nat → Nat)) :
    run_pipeline report [] add_indicators resample_freq
      = (report, none, Frame.base []) := rfl

/-- C8 witness: the warm-up pattern instantiated at row 20 of the concrete
positive close series df25. -/
theorem indicator_warmup_witness :
    (((transform_add_indicators df25).getD 20 dummyE).sma_20 ≠ FVal.nan ↔ 19 ≤ 20) ∧
    (((transform_add_indicators df25).getD 20 dummyE).sma_50 ≠ FVal.nan ↔ 49 ≤ 20) ∧
    (((transform_add_indicators df25).getD 20 dummyE).returns ≠ FVal.nan ↔ 1 ≤ 20) ∧
    (((transform_add_indicators df25).getD 20 dummyE).log_returns ≠ FVal.nan ↔ 1 ≤ 20) ∧
    (((transform_add_indicators df25).getD 20 dummyE).volatility_20 ≠ FVal.nan ↔ 20 ≤ 20) :=
  indicator_warmup df25 (by decide) 20 (by decide)

end FinancialDataETL
